import Mathlib

/-!
Formal model of the low-latency producer/consumer pipeline:
the fixed-capacity free-list memory pool (`src/memory_pool.h`),
the SPSC lock-free bounded ring-buffer queue (`src/lock_free_queue.h`),
and the consumer loop's adaptive backoff policy and drain pass
(`src/market_data.cpp`).

Machine addresses of pool slots are modelled as slot indices
(the C++ address `storage_ + i * sizeof(MarketData)` is a bijective
function of `i`).  Slot contents are modelled directly in the queue's
buffer, which is sound because the pool hands out distinct slots.
-/

/-- The record type flowing through the pipeline (`src/types.h`).
Padding bytes are unspecified content and never read, so they are not
modelled. -/
structure MarketData where
  symbol : String
  price : Float
  volume : Int
deriving Inhabited

/-- The fixed-size free-list memory pool (`src/memory_pool.h`).
`free_list_` holds the addresses (slot indices) currently available;
the C++ constructor pushes addresses for `i = 0 .. size-1` in order. -/
structure MemoryPool where
  size_ : Nat
  free_list_ : List Nat
deriving Inhabited

/-- `MemoryPool::MemoryPool(size)`: free list initialised with all
`size` slot addresses in index order. -/
def mkMemoryPool (size : Nat) : MemoryPool :=
  { size_ := size, free_list_ := List.range size }

/-- `MemoryPool::allocate()`: pops one address from the back of the free
list; returns `none` (nullptr) when the free list is empty. -/
def MemoryPool.allocate (p : MemoryPool) : MemoryPool × Option Nat :=
  match p.free_list_.getLast? with
  | none => (p, none)
  | some a => ({ p with free_list_ := p.free_list_.dropLast }, some a)

/-- `MemoryPool::deallocate(ptr)`: pushes the address back onto the free
list; a null pointer is a no-op. -/
def MemoryPool.deallocate (p : MemoryPool) (ptr : Option Nat) : MemoryPool :=
  match ptr with
  | none => p
  | some a => { p with free_list_ := p.free_list_ ++ [a] }

/-- The SPSC lock-free bounded queue (`src/lock_free_queue.h`).
`slots` are the pool addresses checked out at construction
(`buffer[i]` in the C++); `buffer` holds the contents of those slots;
`head`/`tail` are the ring indices, stored already wrapped modulo
`capacity` exactly as in the source. -/
structure LockFreeQueue where
  slots : List Nat
  buffer : List MarketData
  head : Nat
  tail : Nat
  capacity : Nat
deriving Inhabited

/-- `LockFreeQueue::push(item)`: computes `next_tail = (tail + 1) % capacity`;
if `next_tail == head` the queue is full and nothing is stored; otherwise
the item is written at index `tail` and `tail` advances. -/
def LockFreeQueue.push (q : LockFreeQueue) (item : MarketData) :
    LockFreeQueue × Bool :=
  let current_tail := q.tail
  let next_tail := (current_tail + 1) % q.capacity
  if next_tail = q.head then
    (q, false)
  else
    ({ q with buffer := q.buffer.set current_tail item, tail := next_tail }, true)

/-- `LockFreeQueue::pop(item)`: if `head == tail` the queue is empty, the
out-parameter `out` is left unmodified and the state is unchanged;
otherwise the slot at `head` is copied out and `head` advances.
The result is `(new state, out-parameter value, return value)`. -/
def LockFreeQueue.pop (q : LockFreeQueue) (out : MarketData) :
    LockFreeQueue × MarketData × Bool :=
  let current_head := q.head
  if current_head = q.tail then
    (q, out, false)
  else
    ({ q with head := (current_head + 1) % q.capacity },
     q.buffer.getD current_head default, true)

/-- The constructor's allocation loop (`lock_free_queue.h` lines 27-30):
`n` successive `pool.allocate()` calls; throws (models as `Except.error`)
as soon as one returns null.  Returns the pool state after the loop in
either case: a thrown constructor does not run the destructor, so
already-allocated slots are not returned. -/
def allocSlots (pool : MemoryPool) : Nat → Except String (List Nat) × MemoryPool
  | 0 => (Except.ok [], pool)
  | n + 1 =>
    match pool.allocate with
    | (pool1, none) => (Except.error "Memory pool exhausted", pool1)
    | (pool1, some a) =>
      match allocSlots pool1 n with
      | (Except.ok as, pool2) => (Except.ok (a :: as), pool2)
      | (Except.error e, pool2) => (Except.error e, pool2)

/-- `LockFreeQueue::LockFreeQueue(capacity, pool)`: checks out `capacity`
slots from `pool`, propagating exhaustion as a hard error; on success the
queue starts with `head = tail = 0`.  Slot contents are uninitialised in
the C++; the model fills them with `default`, which is never read before
being overwritten. -/
def mkLockFreeQueue (capacity : Nat) (pool : MemoryPool) :
    Except String LockFreeQueue × MemoryPool :=
  match allocSlots pool capacity with
  | (Except.ok as, pool1) =>
    (Except.ok
      { slots := as, buffer := List.replicate capacity default,
        head := 0, tail := 0, capacity := capacity }, pool1)
  | (Except.error e, pool1) => (Except.error e, pool1)

/-- Repeated pushes, as performed by the producer: stops and reports
failure (`none`) as soon as one push returns `false`. -/
def pushAll (q : LockFreeQueue) : List MarketData → Option LockFreeQueue
  | [] => some q
  | v :: vs =>
    match q.push v with
    | (q1, true) => pushAll q1 vs
    | (_, false) => none

/-- The consumer's drain loop (`market_data.cpp` lines 182-188):
`while (dataQueue.pop(data)) { process(data); }`.  `fuel` bounds the
number of iterations of the model; any fuel at least the number of
stored items drains the queue completely. -/
def drainQueue (q : LockFreeQueue) : Nat → List MarketData × LockFreeQueue
  | 0 => ([], q)
  | fuel + 1 =>
    match q.pop default with
    | (_, _, false) => ([], q)
    | (q1, v, true) =>
      let (vs, q2) := drainQueue q1 fuel
      (v :: vs, q2)

/-- Refinement relation: queue state `q` holds exactly the items of `l`,
oldest first, laid out in ring order starting at index `head`. -/
structure Models (q : LockFreeQueue) (l : List MarketData) : Prop where
  hbuf : q.buffer.length = q.capacity
  hhead : q.head < q.capacity
  htail : q.tail = (q.head + l.length) % q.capacity
  hroom : l.length + 1 ≤ q.capacity
  hget : ∀ i, i < l.length →
    q.buffer.getD ((q.head + i) % q.capacity) default = l.getD i default

/-- The example records of the end-to-end scenario (spec section 8). -/
def recAAPL : MarketData := { symbol := "AAPL", price := 150.25, volume := 1000 }

def recGOOG : MarketData := { symbol := "GOOG", price := 2750.1, volume := 500 }

def recMSFT : MarketData := { symbol := "MSFT", price := 300.75, volume := 800 }

/-- A pool of size 10, as in the end-to-end scenario. -/
def demoPool : MemoryPool := mkMemoryPool 10

/-- The capacity-10 channel constructed over `demoPool`. -/
def demoQ0 : LockFreeQueue :=
  match (mkLockFreeQueue 10 demoPool).1 with
  | Except.ok q => q
  | Except.error _ => default

/-- `demoQ0` after pushing the three scenario records. -/
def demoQ1 : LockFreeQueue :=
  match pushAll demoQ0 [recAAPL, recGOOG, recMSFT] with
  | some q => q
  | none => default

/-- The capacity-3 channel constructed over a pool of size 3, used for
the capacity-bound scenario. -/
def demoQ0C2 : LockFreeQueue :=
  match (mkLockFreeQueue 3 (mkMemoryPool 3)).1 with
  | Except.ok q => q
  | Except.error _ => default

/-- The C++ `%` operator on unsigned integers: its result is undefined
(modelled as `none`) when the divisor is zero. -/
def cppMod (a b : Nat) : Option Nat :=
  if b = 0 then none else some (a % b)

/-- `LockFreeQueue::push` with the partiality of the C++ `%` made
explicit: `none` means the call evaluates `% 0`. -/
def pushChecked (q : LockFreeQueue) (item : MarketData) :
    Option (LockFreeQueue × Bool) :=
  match cppMod (q.tail + 1) q.capacity with
  | none => none
  | some next_tail =>
    if next_tail = q.head then
      some (q, false)
    else
      some ({ q with buffer := q.buffer.set q.tail item, tail := next_tail },
        true)

/-- `LockFreeQueue::pop` with the partiality of the C++ `%` made
explicit: the modulo is only reached in the non-empty branch. -/
def popChecked (q : LockFreeQueue) (out : MarketData) :
    Option (LockFreeQueue × MarketData × Bool) :=
  if q.head = q.tail then
    some (q, out, false)
  else
    match cppMod (q.head + 1) q.capacity with
    | none => none
    | some h1 =>
      some ({ q with head := h1 }, q.buffer.getD q.head default, true)

/-- The capacity-0 channel the constructor happily builds. -/
def demoQ0Zero : LockFreeQueue :=
  match (mkLockFreeQueue 0 (mkMemoryPool 0)).1 with
  | Except.ok q => q
  | Except.error _ => default

/-- A client operation on the pool: one `allocate()` call, or one
`deallocate(ptr)` call with the given address. -/
inductive PoolOp where
  | alloc : PoolOp
  | dealloc : Nat → PoolOp
deriving DecidableEq

/-- Executes a trace of pool operations, tracking as ghost state `out`
the addresses currently checked out (in check-out order).  A failed
allocate (null result) checks nothing out. -/
def runPoolOps (p : MemoryPool) (out : List Nat) :
    List PoolOp → MemoryPool × List Nat
  | [] => (p, out)
  | PoolOp.alloc :: ops =>
    match p.allocate with
    | (p1, none) => runPoolOps p1 out ops
    | (p1, some a) => runPoolOps p1 (out ++ [a]) ops
  | PoolOp.dealloc a :: ops =>
    runPoolOps (p.deallocate (some a)) (out.erase a) ops

/-- Trace validity (the claim's precondition): every `dealloc` returns an
address that is currently outstanding — no double deallocate while
outstanding, no address that was never handed out. -/
def validOps (p : MemoryPool) (out : List Nat) : List PoolOp → Bool
  | [] => true
  | PoolOp.alloc :: ops =>
    match p.allocate with
    | (p1, none) => validOps p1 out ops
    | (p1, some a) => validOps p1 (out ++ [a]) ops
  | PoolOp.dealloc a :: ops =>
    out.contains a && validOps (p.deallocate (some a)) (out.erase a) ops

/-- An example client trace: three allocations with one deallocation in
between, valid on a pool of size 2. -/
def demoOps : List PoolOp :=
  [PoolOp.alloc, PoolOp.alloc, PoolOp.dealloc 0, PoolOp.alloc]

/-- The consumer loop's idle counters (`market_data.cpp` lines 148-150). -/
structure BackoffState where
  empty_count : Nat
  yield_count : Nat
  sleep_count : Nat
deriving DecidableEq

/-- What the consumer does after a failed poll: re-poll immediately,
yield the processor, or sleep for the given number of microseconds. -/
inductive ConsumerAction where
  | busy : ConsumerAction
  | yieldCpu : ConsumerAction
  | sleepFor : Nat → ConsumerAction
deriving DecidableEq

/-- One failed poll of the consumer loop (`market_data.cpp` lines
163-178): increment `empty_count`; below 10000 busy-wait, below 100000
yield, otherwise sleep `min(10 << sleep_count, 100)` microseconds,
advance `sleep_count` up to 4, and clamp `empty_count` back to 10000. -/
def failedPoll (s : BackoffState) : BackoffState × ConsumerAction :=
  let ec := s.empty_count + 1
  if ec < 10000 then
    ({ s with empty_count := ec }, ConsumerAction.busy)
  else if ec < 100000 then
    ({ s with empty_count := ec }, ConsumerAction.yieldCpu)
  else
    let yc := s.yield_count + 1
    let sleep_us := min (10 <<< s.sleep_count) 100
    let sc := if s.sleep_count < 4 then s.sleep_count + 1 else s.sleep_count
    ({ empty_count := 10000, yield_count := yc, sleep_count := sc },
      ConsumerAction.sleepFor sleep_us)

/-- A successful pop resets all idle counters (lines 160-162). -/
def successPoll (_ : BackoffState) : BackoffState :=
  { empty_count := 0, yield_count := 0, sleep_count := 0 }

/-- The counters at consumer start (lines 148-150). -/
def initBackoff : BackoffState :=
  { empty_count := 0, yield_count := 0, sleep_count := 0 }

/-- The counters after `n` consecutive failed polls from state `s`. -/
def iterFailed (s : BackoffState) : Nat → BackoffState
  | 0 => s
  | n + 1 => (failedPoll (iterFailed s n)).1

/-- The action the consumer takes on its n-th consecutive failed poll
(1-indexed) with the channel perpetually empty. -/
def pollAction (n : Nat) : ConsumerAction :=
  (failedPoll (iterFailed initBackoff (n - 1))).2

/-- Two further records (the batch-1 values the producer generates). -/
def recAAPL1 : MarketData :=
  { symbol := "AAPL", price := 151.25, volume := 1001 }

def recGOOG1 : MarketData :=
  { symbol := "GOOG", price := 2751.1, volume := 501 }

/-- `demoQ0` after pushing five records (stop before any pop). -/
def demoQ1C6 : LockFreeQueue :=
  match pushAll demoQ0 [recAAPL, recGOOG, recMSFT, recAAPL1, recGOOG1] with
  | some q => q
  | none => default

/-- The controller state the two loop bodies share
(`market_data.h` / `market_data.cpp`): the `running` flag and the
channel.  The logger and counters carry no control-flow information. -/
structure ParserState where
  running : Bool
  dataQueue : LockFreeQueue

/-- Effect on the shared state of the producer's affinity-failure catch
block (`market_data.cpp` lines 85-90): it logs, sets `running = false`
and returns from the loop. -/
def producerAffinityCatch (s : ParserState) : ParserState :=
  { s with running := false }

/-- Effect on the shared state of the producer's loop-boundary catch
block (`market_data.cpp` lines 121-124): it logs and sets
`running = false`. -/
def producerLoopCatch (s : ParserState) : ParserState :=
  { s with running := false }

/-- Effect on the shared state of the consumer's affinity-failure catch
block (`market_data.cpp` lines 139-143): it logs and returns; the shared
state is untouched. -/
def consumerAffinityCatch (s : ParserState) : ParserState :=
  s

/-- Effect on the shared state of the consumer's loop-boundary catch
block (`market_data.cpp` lines 197-200): it logs; the shared state is
untouched. -/
def consumerLoopCatch (s : ParserState) : ParserState :=
  s

/-- A running controller over the demo channel. -/
def demoParser : ParserState :=
  { running := true, dataQueue := demoQ0 }

theorem Models.cap_pos {q : LockFreeQueue} {l : List MarketData}
    (hm : Models q l) : 0 < q.capacity :=
  Nat.lt_of_lt_of_le (Nat.succ_pos _) hm.hroom

theorem Models.tail_lt {q : LockFreeQueue} {l : List MarketData}
    (hm : Models q l) : q.tail < q.capacity := by
  rw [hm.htail]; exact Nat.mod_lt _ hm.cap_pos

/-- Offsets below `capacity` are uniquely identified by their ring index. -/
theorem ring_index_inj {cap h i j : Nat} (hi : i < cap) (hj : j < cap)
    (heq : (h + i) % cap = (h + j) % cap) : i = j := by
  have hij : Nat.ModEq cap i j := Nat.ModEq.add_left_cancel' h heq
  have : i % cap = j % cap := hij
  rwa [Nat.mod_eq_of_lt hi, Nat.mod_eq_of_lt hj] at this

theorem tail_succ_mod {q : LockFreeQueue} {l : List MarketData}
    (hm : Models q l) : (q.tail + 1) % q.capacity =
      (q.head + (l.length + 1)) % q.capacity := by
  rw [hm.htail, Nat.mod_add_mod, Nat.add_assoc]

/-- A full queue (`l.length = capacity - 1`) rejects a push and is left
unchanged. -/
theorem push_full {q : LockFreeQueue} {l : List MarketData}
    (hm : Models q l) (hfull : l.length + 1 = q.capacity)
    (v : MarketData) : q.push v = (q, false) := by
  have hfullidx : (q.tail + 1) % q.capacity = q.head := by
    rw [tail_succ_mod hm, hfull, Nat.add_mod_right,
      Nat.mod_eq_of_lt hm.hhead]
  simp [LockFreeQueue.push, hfullidx]

/-- A non-full queue accepts a push, storing the item at `tail`. -/
theorem push_not_full {q : LockFreeQueue} {l : List MarketData}
    (hm : Models q l) (hnf : l.length + 1 < q.capacity) (v : MarketData) :
    q.push v =
      ({ q with
          buffer := q.buffer.set q.tail v,
          tail := (q.tail + 1) % q.capacity }, true) := by
  have hne : (q.tail + 1) % q.capacity ≠ q.head := by
    intro heq
    have h0 : (q.head + 0) % q.capacity = q.head := by
      rw [Nat.add_zero, Nat.mod_eq_of_lt hm.hhead]
    have : (q.head + (l.length + 1)) % q.capacity =
        (q.head + 0) % q.capacity := by
      rw [← tail_succ_mod hm, heq, h0]
    have := ring_index_inj hnf hm.cap_pos this
    omega
  simp [LockFreeQueue.push, hne]

/-- Pushing onto a non-full queue appends the item to the modelled list. -/
theorem models_push {q : LockFreeQueue} {l : List MarketData}
    (hm : Models q l) (hnf : l.length + 1 < q.capacity) (v : MarketData) :
    Models (q.push v).1 (l ++ [v]) := by
  rw [push_not_full hm hnf v]
  refine ⟨?_, ?_, ?_, ?_, ?_⟩
  · simpa using hm.hbuf
  · exact hm.hhead
  · simpa using tail_succ_mod hm
  · simp; omega
  · intro i hi
    simp only [List.length_append, List.length_singleton] at hi
    rcases Nat.lt_or_ge i l.length with hlt | hge
    · have hne : q.tail ≠ (q.head + i) % q.capacity := by
        rw [hm.htail]
        intro heq
        have := ring_index_inj (by omega : l.length < q.capacity)
          (Nat.lt_trans hlt (by omega)) heq
        omega
      have hgoal := hm.hget i hlt
      rw [List.getD_eq_getElem?_getD, List.getElem?_set_ne hne,
        ← List.getD_eq_getElem?_getD, hgoal, List.getD_append _ _ _ _ hlt]
    · have hi' : i = l.length := by omega
      subst hi'
      have hidx : (q.head + l.length) % q.capacity = q.tail := hm.htail.symm
      rw [hidx]
      have htl : q.tail < q.buffer.length := by
        rw [hm.hbuf]; exact hm.tail_lt
      rw [List.getD_eq_getElem?_getD, List.getElem?_set_self htl,
        List.getD_append_right _ _ _ _ (Nat.le_refl _)]
      simp

/-- An empty queue (`head == tail`) fails the pop and changes nothing. -/
theorem pop_empty_of_models {q : LockFreeQueue} (hm : Models q [])
    (out : MarketData) : q.pop out = (q, out, false) := by
  have hht : q.head = q.tail := by
    rw [hm.htail]
    simp [Nat.mod_eq_of_lt hm.hhead]
  simp [LockFreeQueue.pop, hht]

/-- A non-empty queue pops its oldest item and advances `head`. -/
theorem pop_cons {q : LockFreeQueue} {v : MarketData} {l : List MarketData}
    (hm : Models q (v :: l)) (out : MarketData) :
    q.pop out =
      ({ q with head := (q.head + 1) % q.capacity }, v, true) := by
  have hlen : l.length + 1 < q.capacity := by
    have := hm.hroom; simp at this; omega
  have hne : q.head ≠ q.tail := by
    intro heq
    have h2 : (q.head + 0) % q.capacity =
        (q.head + (l.length + 1)) % q.capacity := by
      rw [Nat.add_zero, Nat.mod_eq_of_lt hm.hhead]
      conv_lhs => rw [heq, hm.htail]
      simp
    have := ring_index_inj hm.cap_pos hlen h2
    omega
  have hv : q.buffer[q.head]?.getD default = v := by
    have := hm.hget 0 (by simp)
    simpa [Nat.mod_eq_of_lt hm.hhead] using this
  simp [LockFreeQueue.pop, hne, hv]

/-- Popping preserves the refinement: the new state models the tail of
the list. -/
theorem models_pop {q : LockFreeQueue} {v : MarketData} {l : List MarketData}
    (hm : Models q (v :: l)) :
    Models ({ q with head := (q.head + 1) % q.capacity } : LockFreeQueue) l := by
  have hlen : l.length + 1 < q.capacity := by
    have := hm.hroom; simp at this; omega
  refine ⟨hm.hbuf, Nat.mod_lt _ hm.cap_pos, ?_, ?_, ?_⟩
  · show q.tail = ((q.head + 1) % q.capacity + l.length) % q.capacity
    rw [Nat.mod_add_mod, hm.htail]
    congr 1
    simp
    omega
  · show l.length + 1 ≤ q.capacity
    omega
  · intro i hi
    show q.buffer.getD (((q.head + 1) % q.capacity + i) % q.capacity) default
      = l.getD i default
    rw [Nat.mod_add_mod]
    have harith : q.head + 1 + i = q.head + (i + 1) := by omega
    rw [harith]
    have := hm.hget (i + 1) (by simpa using Nat.succ_lt_succ hi)
    simpa using this

/-- One step of the constructor's allocation loop on an exhausted pool. -/
theorem allocSlots_succ_empty {pool : MemoryPool} {n : Nat}
    (h : pool.free_list_ = []) :
    allocSlots pool (n + 1) = (Except.error "Memory pool exhausted", pool) := by
  have ha : pool.allocate = (pool, none) := by
    simp [MemoryPool.allocate, h]
  simp [allocSlots, ha]

/-- One step of the constructor's allocation loop on a non-exhausted pool. -/
theorem allocSlots_succ_last {pool : MemoryPool} {n : Nat} {a : Nat}
    (h : pool.free_list_.getLast? = some a) :
    allocSlots pool (n + 1) =
      match allocSlots { pool with free_list_ := pool.free_list_.dropLast } n with
      | (Except.ok as, pool2) => (Except.ok (a :: as), pool2)
      | (Except.error e, pool2) => (Except.error e, pool2) := by
  have ha : pool.allocate =
      ({ pool with free_list_ := pool.free_list_.dropLast }, some a) := by
    simp [MemoryPool.allocate, h]
  simp [allocSlots, ha]

/-- If the pool has at least `n` free slots, the allocation loop succeeds,
returns `n` slots and consumes exactly `n` entries of the free list. -/
theorem allocSlots_of_le {n : Nat} {pool : MemoryPool}
    (h : n ≤ pool.free_list_.length) :
    ∃ as pool1, allocSlots pool n = (Except.ok as, pool1) ∧
      as.length = n ∧
      pool1.free_list_.length = pool.free_list_.length - n ∧
      pool1.size_ = pool.size_ := by
  induction n generalizing pool with
  | zero => exact ⟨[], pool, rfl, rfl, by omega, rfl⟩
  | succ n ih =>
    have hne : pool.free_list_ ≠ [] := by
      intro hnil; rw [hnil] at h; simp at h
    obtain ⟨a, ha⟩ := List.getLast?_isSome.mpr hne |> Option.isSome_iff_exists.mp
    have hdrop : ({ pool with free_list_ := pool.free_list_.dropLast }
        : MemoryPool).free_list_.length = pool.free_list_.length - 1 := by
      simp [List.length_dropLast]
    obtain ⟨as, pool1, hrec, hlen, hfl, hsz⟩ :=
      @ih { pool with free_list_ := pool.free_list_.dropLast }
        (by rw [hdrop]; omega)
    refine ⟨a :: as, pool1, ?_, by simp [hlen], by rw [hfl, hdrop]; omega,
      by rw [hsz]⟩
    rw [allocSlots_succ_last ha, hrec]

/-- If the pool has fewer than `n` free slots, the allocation loop fails
after draining the free list completely. -/
theorem allocSlots_of_gt {n : Nat} {pool : MemoryPool}
    (h : pool.free_list_.length < n) :
    allocSlots pool n =
      (Except.error "Memory pool exhausted",
       { pool with free_list_ := [] }) := by
  induction n generalizing pool with
  | zero => omega
  | succ n ih =>
    rcases hfl : pool.free_list_ with _ | ⟨b, bs⟩
    · have hpool : ({ pool with free_list_ := [] } : MemoryPool) = pool := by
        cases pool with
        | mk s f => simp_all
      rw [hpool]
      exact allocSlots_succ_empty hfl
    · have hne : pool.free_list_ ≠ [] := by rw [hfl]; simp
      obtain ⟨a, ha⟩ := List.getLast?_isSome.mpr hne |> Option.isSome_iff_exists.mp
      rw [allocSlots_succ_last ha]
      have hlt : ({ pool with free_list_ := pool.free_list_.dropLast }
          : MemoryPool).free_list_.length < n := by
        simp [List.length_dropLast]
        rw [hfl] at h ⊢
        simp at h ⊢
        omega
      rw [ih hlt]

/-- Field values of a successfully constructed queue. -/
theorem mkLockFreeQueue_ok_fields {cap : Nat} {pool : MemoryPool}
    {q : LockFreeQueue} (h : (mkLockFreeQueue cap pool).1 = Except.ok q) :
    q.buffer = List.replicate cap default ∧ q.head = 0 ∧ q.tail = 0 ∧
    q.capacity = cap ∧ q.slots.length = cap := by
  rcases le_or_lt cap pool.free_list_.length with hle | hgt
  · obtain ⟨as, pool1, hrec, hlen, _, _⟩ := allocSlots_of_le hle
    rw [mkLockFreeQueue, hrec] at h
    simp at h
    rw [← h]
    exact ⟨rfl, rfl, rfl, rfl, hlen⟩
  · rw [mkLockFreeQueue, allocSlots_of_gt hgt] at h
    simp at h

/-- A freshly constructed queue models the empty list. -/
theorem models_mk {cap : Nat} {pool : MemoryPool} {q : LockFreeQueue}
    (hcap : 0 < cap) (h : (mkLockFreeQueue cap pool).1 = Except.ok q) :
    Models q [] := by
  obtain ⟨hbuf, hhead, htail, hcapq, _⟩ := mkLockFreeQueue_ok_fields h
  refine ⟨?_, ?_, ?_, ?_, ?_⟩
  · rw [hbuf, hcapq]; simp
  · rw [hhead, hcapq]; exact hcap
  · rw [htail, hhead, hcapq]; simp
  · rw [hcapq]; simpa using hcap
  · intro i hi; simp at hi

/-- Every successful `pushAll` appends the pushed values, in order, to
the modelled contents. -/
theorem models_pushAll {vs : List MarketData} {q q1 : LockFreeQueue}
    {l : List MarketData} (hm : Models q l) (h : pushAll q vs = some q1) :
    Models q1 (l ++ vs) := by
  induction vs generalizing q l with
  | nil => simp [pushAll] at h; simpa [← h] using hm
  | cons v vs ih =>
    rw [pushAll] at h
    rcases Nat.lt_or_ge (l.length + 1) q.capacity with hlt | hge
    · rw [push_not_full hm hlt v] at h
      have hm1 := models_push hm hlt v
      rw [push_not_full hm hlt v] at hm1
      have := ih hm1 h
      simpa using this
    · have hfull : l.length + 1 = q.capacity :=
        Nat.le_antisymm hm.hroom hge
      rw [push_full hm hfull v] at h
      simp at h

/-- When there is room for all of `vs`, every push succeeds. -/
theorem pushAll_ok_of_room {vs : List MarketData} {q : LockFreeQueue}
    {l : List MarketData} (hm : Models q l)
    (hroom : l.length + vs.length + 1 ≤ q.capacity) :
    ∃ q1, pushAll q vs = some q1 := by
  induction vs generalizing q l with
  | nil => exact ⟨q, rfl⟩
  | cons v vs ih =>
    have hlt : l.length + 1 < q.capacity := by simp at hroom; omega
    rw [pushAll, push_not_full hm hlt v]
    have hm1 := models_push hm hlt v
    rw [push_not_full hm hlt v] at hm1
    refine ih hm1 ?_
    show (l ++ [v]).length + vs.length + 1 ≤ q.capacity
    simp at hroom ⊢
    omega

/-- With fuel at least the number of stored items, the drain loop pops
exactly the modelled contents, oldest first, and leaves the queue empty. -/
theorem drainQueue_models {l : List MarketData} {q : LockFreeQueue}
    {fuel : Nat} (hm : Models q l) (hfuel : l.length ≤ fuel) :
    ∃ q2, drainQueue q fuel = (l, q2) ∧ Models q2 [] := by
  induction l generalizing q fuel with
  | nil =>
    rcases fuel with _ | f
    · exact ⟨q, rfl, hm⟩
    · refine ⟨q, ?_, hm⟩
      rw [drainQueue, pop_empty_of_models hm]
  | cons v l ih =>
    rcases fuel with _ | f
    · simp at hfuel
    · rw [drainQueue, pop_cons hm]
      have hm1 := models_pop hm
      obtain ⟨q2, hdrain, hq2⟩ := ih hm1 (by simpa using hfuel)
      refine ⟨q2, ?_, hq2⟩
      simp [hdrain]

/-- Pushing never changes the queue's capacity. -/
theorem push_capacity (q : LockFreeQueue) (v : MarketData) :
    ((q.push v).1).capacity = q.capacity := by
  rw [LockFreeQueue.push]
  split <;> rfl

/-- A successful `pushAll` never changes the queue's capacity. -/
theorem pushAll_capacity {vs : List MarketData} {q q1 : LockFreeQueue}
    (h : pushAll q vs = some q1) : q1.capacity = q.capacity := by
  induction vs generalizing q with
  | nil => simp [pushAll] at h; rw [← h]
  | cons v vs ih =>
    rw [pushAll] at h
    rcases hp : q.push v with ⟨q2, ok⟩
    rcases ok with _ | _
    · rw [hp] at h; simp at h
    · rw [hp] at h
      simp at h
      have := ih h
      rw [this, ← push_capacity q v, hp]

/-- Claim C1: FIFO delivery with exact values.  For every sequence of
pushes that all return true on a freshly constructed channel, draining
by repeated pop with no interleaved pushes yields exactly the pushed
values in push order, each exactly once, and the next pop after the
last returns false. -/
theorem C1_fifo_delivery (capacity : Nat) (pool : MemoryPool)
    (vs : List MarketData) (q0 q1 : LockFreeQueue)
    (hcap : 0 < capacity)
    (hmk : (mkLockFreeQueue capacity pool).1 = Except.ok q0)
    (hpush : pushAll q0 vs = some q1) :
    ∃ q2, drainQueue q1 vs.length = (vs, q2) ∧
      ∀ out, q2.pop out = (q2, out, false) := by
  have hm0 := models_mk hcap hmk
  have hm1 := models_pushAll hm0 hpush
  simp at hm1
  obtain ⟨q2, hdrain, hq2⟩ := drainQueue_models hm1 (Nat.le_refl _)
  exact ⟨q2, hdrain, fun out => pop_empty_of_models hq2 out⟩

/-- Witness for C1: the end-to-end scenario — pool of size 10, channel of
capacity 10, the three scenario records pushed; three pops return exactly
them in order and a fourth pop reports empty. -/
theorem C1_fifo_delivery_witness :
    ∃ q2, drainQueue demoQ1 [recAAPL, recGOOG, recMSFT].length =
        ([recAAPL, recGOOG, recMSFT], q2) ∧
      ∀ out, q2.pop out = (q2, out, false) :=
  C1_fifo_delivery 10 demoPool [recAAPL, recGOOG, recMSFT] demoQ0 demoQ1
    (by decide) rfl rfl

/-- Claim C2: capacity bound.  On a channel of capacity C (C at least 2)
with no intervening pops, any C-1 pushes all succeed, the C-th push
returns false and stores nothing (state unchanged), and after one
successful pop the next push succeeds again: usable capacity is C-1. -/
theorem C2_capacity_bound (C : Nat) (pool : MemoryPool)
    (q0 : LockFreeQueue) (vs : List MarketData) (hC : 2 ≤ C)
    (hmk : (mkLockFreeQueue C pool).1 = Except.ok q0)
    (hlen : vs.length = C - 1) :
    ∃ q1, pushAll q0 vs = some q1 ∧
      (∀ v, q1.push v = (q1, false)) ∧
      (∀ out, ∃ q2 v, q1.pop out = (q2, v, true) ∧
        ∀ w, (q2.push w).2 = true) := by
  have hcap : 0 < C := by omega
  have hm0 := models_mk hcap hmk
  have hcapq : q0.capacity = C := (mkLockFreeQueue_ok_fields hmk).2.2.2.1
  obtain ⟨q1, hq1⟩ := @pushAll_ok_of_room vs q0 [] hm0 (by simp [hcapq]; omega)
  have hm1 : Models q1 vs := by simpa using models_pushAll hm0 hq1
  have hcapq1 : q1.capacity = C := by rw [pushAll_capacity hq1, hcapq]
  have hfull : vs.length + 1 = q1.capacity := by rw [hcapq1]; omega
  refine ⟨q1, hq1, fun v => push_full hm1 hfull v, fun out => ?_⟩
  rcases hvs : vs with _ | ⟨v, l⟩
  · rw [hvs] at hlen; simp at hlen; omega
  · rw [hvs] at hm1
    refine ⟨{ q1 with head := (q1.head + 1) % q1.capacity }, v,
      pop_cons hm1 out, fun w => ?_⟩
    have hm2 := models_pop hm1
    have hlt : l.length + 1 <
        ({ q1 with head := (q1.head + 1) % q1.capacity }
          : LockFreeQueue).capacity := by
      show l.length + 1 < q1.capacity
      rw [hvs] at hfull
      simp at hfull
      omega
    rw [push_not_full hm2 hlt w]

/-- Witness for C2: a capacity-3 channel over a pool of size 3 accepts
two pushes, rejects the third, and accepts a push again after a pop. -/
theorem C2_capacity_bound_witness :
    ∃ q1, pushAll demoQ0C2 [recAAPL, recGOOG] = some q1 ∧
      (∀ v, q1.push v = (q1, false)) ∧
      (∀ out, ∃ q2 v, q1.pop out = (q2, v, true) ∧
        ∀ w, (q2.push w).2 = true) :=
  C2_capacity_bound 3 (mkMemoryPool 3) demoQ0C2 [recAAPL, recGOOG]
    (by decide) rfl rfl

/-- Claim C3: pop on an empty channel (head = tail) is a pure failure:
it returns false, leaves the out-parameter unmodified and leaves the
whole channel state unchanged. -/
theorem C3_pop_empty_pure (q : LockFreeQueue) (out : MarketData)
    (h : q.head = q.tail) : q.pop out = (q, out, false) := by
  simp [LockFreeQueue.pop, h]

/-- Witness for C3: popping the freshly built capacity-10 channel with a
non-default out-parameter fails and changes neither the out-parameter
nor the channel. -/
theorem C3_pop_empty_pure_witness :
    demoQ0.pop recAAPL = (demoQ0, recAAPL, false) :=
  C3_pop_empty_pure demoQ0 recAAPL rfl

/-- Claim C7: channel construction checks out exactly `capacity` slots
from the pool and fails with a hard error (an exception, not a boolean)
exactly when the pool has fewer than `capacity` free slots. -/
theorem C7_construction_propagation (capacity : Nat) (pool : MemoryPool) :
    (pool.free_list_.length < capacity →
      (mkLockFreeQueue capacity pool).1 =
        Except.error "Memory pool exhausted") ∧
    (capacity ≤ pool.free_list_.length →
      ∃ q, (mkLockFreeQueue capacity pool).1 = Except.ok q ∧
        q.slots.length = capacity ∧
        (mkLockFreeQueue capacity pool).2.free_list_.length =
          pool.free_list_.length - capacity) := by
  constructor
  · intro h
    rw [mkLockFreeQueue, allocSlots_of_gt h]
  · intro h
    obtain ⟨as, pool1, hrec, hlen, hfl, _⟩ := allocSlots_of_le h
    rw [mkLockFreeQueue, hrec]
    exact ⟨_, rfl, hlen, hfl⟩

/-- Witness for C7: a capacity-3 request over a pool with 2 free slots
fails hard; over a pool with 3 free slots it succeeds, checks out all 3
slots, and leaves the pool with 0 free slots. -/
theorem C7_construction_propagation_witness :
    (mkLockFreeQueue 3 (mkMemoryPool 2)).1 =
      Except.error "Memory pool exhausted" ∧
    ∃ q, (mkLockFreeQueue 3 (mkMemoryPool 3)).1 = Except.ok q ∧
      q.slots.length = 3 ∧
      (mkLockFreeQueue 3 (mkMemoryPool 3)).2.free_list_.length =
        (mkMemoryPool 3).free_list_.length - 3 :=
  ⟨(C7_construction_propagation 3 (mkMemoryPool 2)).1 (by decide),
   (C7_construction_propagation 3 (mkMemoryPool 3)).2 (by decide)⟩

/-- Claim C9: failed channel construction is not atomic with respect to
the pool.  If the pool has fewer free slots than the requested capacity,
the constructor throws only after checking out every remaining slot, and
those slots are never returned: the pool's free list is left empty, not
restored. -/
theorem C9_nonatomic_construction (capacity : Nat) (pool : MemoryPool)
    (h : pool.free_list_.length < capacity) :
    (mkLockFreeQueue capacity pool).1 =
      Except.error "Memory pool exhausted" ∧
    (mkLockFreeQueue capacity pool).2.free_list_ = [] := by
  rw [mkLockFreeQueue, allocSlots_of_gt h]
  exact ⟨rfl, rfl⟩

/-- Witness for C9: requesting capacity 3 from a pool with 2 free slots
throws and leaves the pool's free list empty. -/
theorem C9_nonatomic_construction_witness :
    (mkLockFreeQueue 3 (mkMemoryPool 2)).1 =
      Except.error "Memory pool exhausted" ∧
    (mkLockFreeQueue 3 (mkMemoryPool 2)).2.free_list_ = [] :=
  C9_nonatomic_construction 3 (mkMemoryPool 2) (by decide)

/-- Counterexample to C10 as stated: the constructor does accept
capacity 0, but a pop on that (necessarily empty, `head = tail`) channel
returns false without ever evaluating the modulo: it is not a division
by zero. -/
theorem C10_counterexample :
    (mkLockFreeQueue 0 (mkMemoryPool 0)).1 = Except.ok demoQ0Zero ∧
    popChecked demoQ0Zero recAAPL = some (demoQ0Zero, recAAPL, false) :=
  ⟨rfl, rfl⟩

/-- Claim C10, amended: for capacity at least 1 `push` and `pop` are
total (the checked semantics agrees with the total model); the
constructor accepts capacity 0 for any pool; on a capacity-0 channel
every `push` evaluates `% 0`, while `pop` evaluates `% 0` exactly in its
non-empty branch — on an empty channel (`head = tail`, which is the only
state reachable without undefined behaviour) it returns false without
dividing. -/
theorem C10_mod_zero_precondition :
    (∀ q item, 1 ≤ q.capacity →
      pushChecked q item = some (q.push item) ∧
      ∀ out, popChecked q out = some (q.pop out)) ∧
    (∀ pool, ∃ q, (mkLockFreeQueue 0 pool).1 = Except.ok q) ∧
    (∀ q item, q.capacity = 0 → pushChecked q item = none) ∧
    (∀ q out, q.capacity = 0 → q.head ≠ q.tail → popChecked q out = none) ∧
    (∀ q out, q.head = q.tail → popChecked q out = some (q, out, false)) := by
  refine ⟨?_, ?_, ?_, ?_, ?_⟩
  · intro q item hcap
    have hne : q.capacity ≠ 0 := by omega
    constructor
    · simp only [pushChecked, cppMod, if_neg hne, LockFreeQueue.push]
      split <;> rfl
    · intro out
      simp only [popChecked, cppMod, if_neg hne, LockFreeQueue.pop]
      split <;> rfl
  · intro pool
    exact ⟨_, rfl⟩
  · intro q item hcap
    simp [pushChecked, cppMod, hcap]
  · intro q out hcap hne
    simp [popChecked, cppMod, hcap, hne]
  · intro q out h
    simp [popChecked, h]

/-- Witness for C10 (amended): on the capacity-10 channel the checked
semantics is total and agrees with the model; on the capacity-0 channel
a push divides by zero while a pop on the empty state does not. -/
theorem C10_mod_zero_precondition_witness :
    pushChecked demoQ0 recAAPL = some (demoQ0.push recAAPL) ∧
    pushChecked demoQ0Zero recAAPL = none ∧
    popChecked demoQ0Zero recGOOG = some (demoQ0Zero, recGOOG, false) :=
  ⟨(C10_mod_zero_precondition.1 demoQ0 recAAPL (by decide)).1,
   C10_mod_zero_precondition.2.2.1 demoQ0Zero recAAPL rfl,
   C10_mod_zero_precondition.2.2.2.2 demoQ0Zero recGOOG rfl⟩

/-- Unfolding of `allocate` on a non-empty free list. -/
theorem allocate_last {p : MemoryPool} {a : Nat}
    (h : p.free_list_.getLast? = some a) :
    p.allocate = ({ p with free_list_ := p.free_list_.dropLast }, some a) := by
  simp [MemoryPool.allocate, h]

/-- Unfolding of `allocate` on an empty free list. -/
theorem allocate_empty {p : MemoryPool} (h : p.free_list_ = []) :
    p.allocate = (p, none) := by
  simp [MemoryPool.allocate, h]

/-- The multiset of addresses (free list plus outstanding) is preserved
by any valid trace. -/
theorem runPoolOps_perm {init : List Nat} :
    ∀ (ops : List PoolOp) (p : MemoryPool) (out : List Nat),
      validOps p out ops = true → (p.free_list_ ++ out).Perm init →
      ((runPoolOps p out ops).1.free_list_ ++
        (runPoolOps p out ops).2).Perm init := by
  intro ops
  induction ops with
  | nil => intro p out _ hperm; exact hperm
  | cons op ops ih =>
    intro p out hv hperm
    rcases op with _ | a
    · rcases hfl : p.free_list_.getLast? with _ | a
      · have hnil : p.free_list_ = [] := by
          rwa [List.getLast?_eq_none_iff] at hfl
        rw [runPoolOps, allocate_empty hnil]
        rw [validOps, allocate_empty hnil] at hv
        exact ih p out hv hperm
      · rw [runPoolOps, allocate_last hfl]
        rw [validOps, allocate_last hfl] at hv
        refine ih _ _ hv ?_
        refine List.Perm.trans ?_ hperm
        show (p.free_list_.dropLast ++ (out ++ [a])).Perm
          (p.free_list_ ++ out)
        have hne : p.free_list_ ≠ [] := by
          intro hnil; rw [hnil] at hfl; simp at hfl
        have ha : p.free_list_.getLast hne = a := by
          rw [List.getLast?_eq_getLast _ hne] at hfl
          exact Option.some_inj.mp hfl
        have hsplit : p.free_list_.dropLast ++ [a] = p.free_list_ := by
          rw [← ha]
          exact List.dropLast_append_getLast hne
        have h1 : (p.free_list_.dropLast ++ (out ++ [a])).Perm
            (p.free_list_.dropLast ++ ([a] ++ out)) :=
          List.Perm.append_left _ List.perm_append_comm
        refine h1.trans ?_
        rw [← List.append_assoc, hsplit]
    · rw [runPoolOps]
      rw [validOps, Bool.and_eq_true] at hv
      obtain ⟨hmem, hv⟩ := hv
      have hmem' : a ∈ out := by simpa using hmem
      refine ih _ _ hv ?_
      refine List.Perm.trans ?_ hperm
      show ((p.free_list_ ++ [a]) ++ out.erase a).Perm (p.free_list_ ++ out)
      rw [List.append_assoc]
      exact List.Perm.append_left _ (List.perm_cons_erase hmem').symm

/-- `allocate` reports exhaustion exactly when the free list is empty. -/
theorem allocate_none_iff (p : MemoryPool) :
    (p.allocate).2 = none ↔ p.free_list_ = [] := by
  rcases hfl : p.free_list_.getLast? with _ | a
  · have hnil := List.getLast?_eq_none_iff.mp hfl
    rw [allocate_empty hnil]
    simp [hnil]
  · rw [allocate_last hfl]
    simp
    intro h
    rw [h] at hfl
    simp at hfl

/-- Claim C4: pool slot uniqueness.  For every valid trace (only
outstanding addresses deallocated, none twice) on a pool of size N, the
outstanding addresses are pairwise distinct, every one of the N slot
addresses is either in the free list exactly once and not outstanding or
outstanding exactly once and not in the free list, and `allocate`
returns the no-slot signal exactly when all N slots are outstanding. -/
theorem C4_pool_slot_uniqueness (N : Nat) (ops : List PoolOp)
    (hv : validOps (mkMemoryPool N) [] ops = true) :
    ((runPoolOps (mkMemoryPool N) [] ops).2).Nodup ∧
    (∀ a, a < N →
      ((runPoolOps (mkMemoryPool N) [] ops).1.free_list_.count a = 1 ∧
        (runPoolOps (mkMemoryPool N) [] ops).2.count a = 0) ∨
      ((runPoolOps (mkMemoryPool N) [] ops).1.free_list_.count a = 0 ∧
        (runPoolOps (mkMemoryPool N) [] ops).2.count a = 1)) ∧
    (((runPoolOps (mkMemoryPool N) [] ops).1.allocate).2 = none ↔
      (runPoolOps (mkMemoryPool N) [] ops).2.length = N) := by
  have hinit : ((mkMemoryPool N).free_list_ ++ ([] : List Nat)).Perm
      (List.range N) := by
    simp [mkMemoryPool]
  have hperm := runPoolOps_perm ops (mkMemoryPool N) [] hv hinit
  have hnd : ((runPoolOps (mkMemoryPool N) [] ops).1.free_list_ ++
      (runPoolOps (mkMemoryPool N) [] ops).2).Nodup :=
    hperm.nodup_iff.mpr (List.nodup_range N)
  have hlen : (runPoolOps (mkMemoryPool N) [] ops).1.free_list_.length +
      (runPoolOps (mkMemoryPool N) [] ops).2.length = N := by
    have h2 := hperm.length_eq
    rw [List.length_append, List.length_range] at h2
    exact h2
  refine ⟨hnd.of_append_right, ?_, ?_⟩
  · intro a ha
    have hc := hperm.count_eq a
    rw [List.count_append] at hc
    have hr : (List.range N).count a = 1 :=
      List.count_eq_one_of_mem (List.nodup_range N) (List.mem_range.mpr ha)
    rw [hr] at hc
    omega
  · rw [allocate_none_iff]
    constructor
    · intro h
      rw [h] at hlen
      simpa using hlen
    · intro h
      rw [h] at hlen
      have : (runPoolOps (mkMemoryPool N) [] ops).1.free_list_.length = 0 := by
        omega
      exact List.eq_nil_of_length_eq_zero this

/-- Witness for C4: the trace `demoOps` on a pool of size 2 — allocate
twice (exhausting the pool), return slot 0, allocate again. -/
theorem C4_pool_slot_uniqueness_witness :
    ((runPoolOps (mkMemoryPool 2) [] demoOps).2).Nodup ∧
    (∀ a, a < 2 →
      ((runPoolOps (mkMemoryPool 2) [] demoOps).1.free_list_.count a = 1 ∧
        (runPoolOps (mkMemoryPool 2) [] demoOps).2.count a = 0) ∨
      ((runPoolOps (mkMemoryPool 2) [] demoOps).1.free_list_.count a = 0 ∧
        (runPoolOps (mkMemoryPool 2) [] demoOps).2.count a = 1)) ∧
    (((runPoolOps (mkMemoryPool 2) [] demoOps).1.allocate).2 = none ↔
      (runPoolOps (mkMemoryPool 2) [] demoOps).2.length = 2) :=
  C4_pool_slot_uniqueness 2 demoOps (by decide)

theorem failedPoll_busy {s : BackoffState} (h : s.empty_count + 1 < 10000) :
    failedPoll s =
      ({ s with empty_count := s.empty_count + 1 }, ConsumerAction.busy) := by
  simp [failedPoll, h]

theorem failedPoll_yield {s : BackoffState}
    (h2 : s.empty_count + 1 < 100000) (h1 : 10000 ≤ s.empty_count + 1) :
    failedPoll s =
      ({ s with empty_count := s.empty_count + 1 },
       ConsumerAction.yieldCpu) := by
  have h0 : ¬ (s.empty_count + 1 < 10000) := by omega
  simp [failedPoll, h0, h2]

theorem failedPoll_sleep {s : BackoffState} (h : s.empty_count + 1 = 100000) :
    failedPoll s =
      ({ empty_count := 10000, yield_count := s.yield_count + 1,
         sleep_count :=
           if s.sleep_count < 4 then s.sleep_count + 1 else s.sleep_count },
       ConsumerAction.sleepFor (min (10 <<< s.sleep_count) 100)) := by
  have h0 : ¬ (s.empty_count + 1 < 10000) := by omega
  have h1 : ¬ (s.empty_count + 1 < 100000) := by omega
  simp [failedPoll, h0, h1]

theorem iterFailed_add (s : BackoffState) (m n : Nat) :
    iterFailed s (m + n) = iterFailed (iterFailed s m) n := by
  induction n with
  | zero => rfl
  | succ n ih =>
    show (failedPoll (iterFailed s (m + n))).1 = _
    rw [ih]
    rfl

/-- Between two sleeps the counter climbs back through the yield band:
starting from a clamped state (`empty_count = 10000`), the next 89999
failed polls only increment `empty_count`. -/
theorem iterFailed_window (s : BackoffState) (hs : s.empty_count = 10000) :
    ∀ j, j ≤ 89999 → iterFailed s j = { s with empty_count := 10000 + j } := by
  intro j
  induction j with
  | zero =>
    intro _
    cases s with
    | mk e y c =>
      simp at hs
      simp [iterFailed, hs]
  | succ j ih =>
    intro hj
    show (failedPoll (iterFailed s j)).1 = _
    rw [ih (by omega)]
    rw [failedPoll_yield (by simp; omega) (by simp; omega)]
    simp
    omega

/-- During the first 99999 failed polls only `empty_count` moves. -/
theorem failedPolls_below (n : Nat) (h : n < 100000) :
    iterFailed initBackoff n =
      { empty_count := n, yield_count := 0, sleep_count := 0 } := by
  induction n with
  | zero => rfl
  | succ n ih =>
    show (failedPoll (iterFailed initBackoff n)).1 = _
    rw [ih (by omega)]
    rcases Nat.lt_or_ge (n + 1) 10000 with hlt | hge
    · rw [failedPoll_busy (by simpa using hlt)]
    · rw [failedPoll_yield (by simpa using h) (by simpa using hge)]

/-- The state right after the (k+1)-th sleep. -/
theorem failedPolls_after_sleep (k : Nat)
    (hcyc : iterFailed initBackoff (99999 + 90000 * k) =
      { empty_count := 99999, yield_count := k, sleep_count := min k 4 }) :
    iterFailed initBackoff ((99999 + 90000 * k) + 1) =
      { empty_count := 10000, yield_count := k + 1,
        sleep_count := min (k + 1) 4 } := by
  show (failedPoll (iterFailed initBackoff (99999 + 90000 * k))).1 = _
  rw [hcyc, failedPoll_sleep (by simp)]
  simp only [BackoffState.mk.injEq, true_and]
  split <;> omega

/-- The state just before the (k+1)-th sleep: the clamp to 10000 makes
the counters cycle with period 90000 after the first 100000 polls. -/
theorem failedPolls_cycle (k : Nat) :
    iterFailed initBackoff (99999 + 90000 * k) =
      { empty_count := 99999, yield_count := k, sleep_count := min k 4 } := by
  induction k with
  | zero => simpa using failedPolls_below 99999 (by omega)
  | succ k ih =>
    have hsplit : 99999 + 90000 * (k + 1) =
        ((99999 + 90000 * k) + 1) + 89999 := by ring
    rw [hsplit, iterFailed_add, failedPolls_after_sleep k ih,
      iterFailed_window _ rfl 89999 (by omega)]

theorem pollAction_busy (n : Nat) (h1 : 1 ≤ n) (h2 : n < 10000) :
    pollAction n = ConsumerAction.busy := by
  unfold pollAction
  rw [failedPolls_below (n - 1) (by omega), failedPoll_busy (by simp; omega)]

theorem pollAction_yield (n : Nat) (h1 : 10000 ≤ n) (h2 : n < 100000) :
    pollAction n = ConsumerAction.yieldCpu := by
  unfold pollAction
  rw [failedPolls_below (n - 1) (by omega),
    failedPoll_yield (by simp; omega) (by simp; omega)]

theorem pollAction_sleep (k : Nat) :
    pollAction (100000 + 90000 * k) =
      ConsumerAction.sleepFor (min (10 <<< (min k 4)) 100) := by
  unfold pollAction
  have hn : 100000 + 90000 * k - 1 = 99999 + 90000 * k := by omega
  rw [hn, failedPolls_cycle k, failedPoll_sleep (by simp)]

theorem pollAction_between (k j : Nat) (hj1 : 1 ≤ j) (hj2 : j ≤ 89999) :
    pollAction (100000 + 90000 * k + j) = ConsumerAction.yieldCpu := by
  unfold pollAction
  have hn : 100000 + 90000 * k + j - 1 =
      ((99999 + 90000 * k) + 1) + (j - 1) := by omega
  rw [hn, iterFailed_add, failedPolls_after_sleep k (failedPolls_cycle k),
    iterFailed_window _ rfl (j - 1) (by omega),
    failedPoll_yield (by simp; omega) (by simp; omega)]

/-- Counterexample to C5 as stated: the claim says the consumer sleeps on
every consecutive failed poll at and beyond the 100,000th, but because
`empty_count` is clamped back to 10000 after each sleep, the 100,001-th
consecutive failed poll yields instead of sleeping. -/
theorem C5_counterexample : pollAction 100001 = ConsumerAction.yieldCpu := by
  have h := pollAction_between 0 1 (by omega) (by omega)
  simpa using h

/-- Claim C5, amended: with the channel perpetually empty the consumer
busy-spins on failed polls 1-9999, yields on polls 10000-99999, sleeps
exactly on poll 100000 and then on every 90000th poll after it (yielding
on all polls in between, because `empty_count` is clamped back to 10000
after each sleep), with the (k+1)-th sleep lasting
`min(10 * 2^(min k 4), 100)` microseconds — 10, 20, 40, 80, then capped
at 100 after four doublings; a successful pop resets the ladder to the
busy-spin stage. -/
theorem C5_backoff_ladder :
    (∀ n, 1 ≤ n → n < 10000 → pollAction n = ConsumerAction.busy) ∧
    (∀ n, 10000 ≤ n → n < 100000 →
      pollAction n = ConsumerAction.yieldCpu) ∧
    (∀ k, pollAction (100000 + 90000 * k) =
      ConsumerAction.sleepFor (min (10 <<< (min k 4)) 100)) ∧
    (∀ k j, 1 ≤ j → j ≤ 89999 →
      pollAction (100000 + 90000 * k + j) = ConsumerAction.yieldCpu) ∧
    (∀ s, successPoll s = initBackoff) :=
  ⟨pollAction_busy, pollAction_yield, pollAction_sleep, pollAction_between,
   fun _ => rfl⟩

/-- Witness for C5 (amended): poll 1 busy-spins, poll 10000 yields, poll
100000 sleeps 10 microseconds, poll 190000 sleeps 20 microseconds, poll
460000 (the fifth sleep) sleeps the capped 100 microseconds, and poll
100001 yields. -/
theorem C5_backoff_ladder_witness :
    pollAction 1 = ConsumerAction.busy ∧
    pollAction 10000 = ConsumerAction.yieldCpu ∧
    pollAction 100000 = ConsumerAction.sleepFor 10 ∧
    pollAction 190000 = ConsumerAction.sleepFor 20 ∧
    pollAction 460000 = ConsumerAction.sleepFor 100 ∧
    pollAction 100001 = ConsumerAction.yieldCpu :=
  ⟨C5_backoff_ladder.1 1 (by decide) (by decide),
   C5_backoff_ladder.2.1 10000 (by decide) (by decide),
   by simpa using C5_backoff_ladder.2.2.1 0,
   by simpa using C5_backoff_ladder.2.2.1 1,
   by simpa using C5_backoff_ladder.2.2.1 4,
   by simpa using C5_backoff_ladder.2.2.2.1 0 1 (by decide) (by decide)⟩

/-- Claim C6: drain-on-stop.  If five items were pushed (all succeeding)
into a freshly built channel and stop arrives before any pop, then the
consumer's drain pass — which keeps calling pop until the channel
reports empty, however many iterations that takes — observes exactly the
five items, once each, in push order, and leaves the channel empty: no
enqueued item is dropped on shutdown. -/
theorem C6_drain_on_stop (capacity : Nat) (pool : MemoryPool)
    (v1 v2 v3 v4 v5 : MarketData) (q0 q1 : LockFreeQueue)
    (hcap : 0 < capacity)
    (hmk : (mkLockFreeQueue capacity pool).1 = Except.ok q0)
    (hpush : pushAll q0 [v1, v2, v3, v4, v5] = some q1) :
    ∀ fuel, 5 ≤ fuel →
      ∃ q2, drainQueue q1 fuel = ([v1, v2, v3, v4, v5], q2) ∧
        ∀ out, q2.pop out = (q2, out, false) := by
  intro fuel hfuel
  have hm0 := models_mk hcap hmk
  have hm1 : Models q1 [v1, v2, v3, v4, v5] := by
    simpa using models_pushAll hm0 hpush
  obtain ⟨q2, hdrain, hq2⟩ := drainQueue_models hm1 (by simpa using hfuel)
  exact ⟨q2, hdrain, fun out => pop_empty_of_models hq2 out⟩

/-- Witness for C6: five concrete records pushed into the capacity-10
channel; a drain pass of eight iterations still returns exactly the five
records in push order and ends on an empty channel. -/
theorem C6_drain_on_stop_witness :
    ∃ q2, drainQueue demoQ1C6 8 =
        ([recAAPL, recGOOG, recMSFT, recAAPL1, recGOOG1], q2) ∧
      ∀ out, q2.pop out = (q2, out, false) :=
  C6_drain_on_stop 10 demoPool recAAPL recGOOG recMSFT recAAPL1 recGOOG1
    demoQ0 demoQ1C6 (by decide) rfl rfl 8 (by decide)

/-- Counterexample to C8 as stated: the claim says a failing loop's
handler never changes the shared `running` flag, but the producer's
affinity-failure handler sets it to false (as does its loop-boundary
handler), which the consumer loop observes and exits on. -/
theorem C8_counterexample :
    demoParser.running = true ∧
    (producerAffinityCatch demoParser).running = false ∧
    (producerLoopCatch demoParser).running = false :=
  ⟨rfl, rfl, rfl⟩

/-- Claim C8, amended: exceptions inside either loop are caught at that
loop's boundary (the handlers return normally, so the process does not
crash) and the consumer's handlers leave the shared state unchanged, but
both of the producer's handlers set the shared `running` flag to false,
so a producer failure also signals the consumer loop to wind down and
drain. -/
theorem C8_loop_failure_isolation (s : ParserState) :
    producerAffinityCatch s = { s with running := false } ∧
    producerLoopCatch s = { s with running := false } ∧
    consumerAffinityCatch s = s ∧
    consumerLoopCatch s = s :=
  ⟨rfl, rfl, rfl, rfl⟩
